import Mathlib

/-
Verification development for the n2tlog log ingestion pipeline.

The source is a single Python module that reads Apache access log lines,
extracts identifier resolution events, enriches them, deduplicates them
and stores them into a relational table keyed by a deterministic row id.

The shallow embedding below translates the pipeline code into Lean:
pure helpers become Lean functions, the sqlite table becomes a list of
rows that is only ever extended by fresh primary keys, the loop in
LogRecordManager.parse becomes a fold over the list of parsed entries,
and Python exceptions that the code can raise or swallow become Except
and Option values.  External collaborators (the apachelogs line parser,
hashlib sha1, the str form of a datetime, the IP2Location country lookup
and the ua-parser user agent parser) enter as explicit function
parameters bundled in an Env value, since their internals are library
code outside this repository.
-/

set_option linter.unusedVariables false

namespace N2t

/-- Model of a Python datetime value as produced by the apachelogs parser
for the request_time field.  The time zone of the source log is fixed for
a whole log, so comparisons are modelled directly on the calendar fields. -/
structure DateTime where
  year : Nat
  month : Nat
  day : Nat
  hour : Nat
  minute : Nat
  second : Nat
  microsecond : Nat
deriving Repr, DecidableEq

/-- Positional encoding of a datetime.  For field values inside the ranges
enforced by the Python datetime type the encoding is strictly monotone with
respect to the field-lexicographic comparison that Python uses, so the
order on keys models the order on datetimes. -/
def dtKey (t : DateTime) : Nat :=
  (((((t.year * 13 + t.month) * 32 + t.day) * 24 + t.hour) * 60 + t.minute) * 60
      + t.second) * 1000000 + t.microsecond

/-- Comparison of datetimes, modelling the Python comparison operators on
datetime values. -/
def dtLe (a b : DateTime) : Bool :=
  decide (dtKey a ≤ dtKey b)

/-- Binary maximum of two datetimes, used to model the SQL MAX aggregate
over the stored timestamp column. -/
def dtMax (a b : DateTime) : DateTime :=
  if dtKey a < dtKey b then b else a

/-- Result of the external ua-parser library call, flattened to the fields
the source actually reads out of the nested dictionaries.  A missing key
in the Python dictionaries is the value none here. -/
structure UAParse where
  browser_family : Option String
  browser_major : Option String
  device_brand : Option String
  device_family : Option String
  device_model : Option String
  os_family : Option String
  os_major : Option String
deriving Repr, DecidableEq

/-- The empty dictionary that LogRecordManager.parse_ua returns when the
external user agent parser raises: every field read from it is absent. -/
def emptyUA : UAParse :=
  { browser_family := none, browser_major := none, device_brand := none,
    device_family := none, device_model := none, os_family := none,
    os_major := none }

/-- LogRecordManager.parse_ua: wraps the external ua-parser call in a
try/except that converts any raised error into the empty dictionary.
The functools cache on the method only memoizes the call and does not
change its value.  The external parser is the argument uaP; a raised
Python exception is its error case. -/
def parse_ua (uaP : String → Except String UAParse) (ua : String) : UAParse :=
  match uaP ua with
  | Except.ok r => r
  | Except.error _ => emptyUA

/-- One row of the logs table, with the seventeen columns in the order the
INSERT statement of the source lists them.  The id column is the primary
key of the table. -/
structure Row where
  id : String
  t : DateTime
  y : Nat
  m : Nat
  d : Nat
  msec : Nat
  client_ip : String
  id_scheme : String
  id_value : String
  country_code : Option String
  browser_family : Option String
  browser_major : Option String
  device_brand : Option String
  device_family : Option String
  device_model : Option String
  os_family : Option String
  os_major : Option String
deriving Repr, DecidableEq

/-- One parsed access log entry as surfaced by the external apachelogs
parser: the fields of it that the pipeline reads.  The user agent header
is none when the request carried no User-Agent header. -/
structure LogEntry where
  remote_host : String
  request_time : DateTime
  request_line : String
  final_status : Nat
  user_agent : Option String
deriving Repr, DecidableEq

/-- The external collaborators of the pipeline, passed in explicitly:
hash models hashlib sha1 hexdigest, dtStr models the Python str form of a
datetime as interpolated by an f-string, to_country models the
IP2Location lookup, uaP models the ua-parser call (error = raised
exception). -/
structure Env where
  hash : String → String
  dtStr : DateTime → String
  to_country : String → Option String
  uaP : String → Except String UAParse

/-- The module level LOCAL_HOST list of the source. -/
def LOCAL_HOST : List String := ["localhost", "127.0.0.1"]

/-- getRowId from the source: the digest of the separator-free
concatenation of the string form of the timestamp, the remote host and
the identifier value, in that fixed order.  The external sha1 hexdigest
is the function argument hash. -/
def getRowId (hash : String → String) (t ip id_value : String) : String :=
  hash (t ++ ip ++ id_value)

/-- Value of one hexadecimal digit, used by the percent decoder. -/
def hexVal (c : Char) : Option Nat :=
  if c.isDigit then some (c.toNat - 48)
  else if 97 ≤ c.toNat && c.toNat ≤ 102 then some (c.toNat - 87)
  else if 65 ≤ c.toNat && c.toNat ≤ 70 then some (c.toNat - 55)
  else none

/-- Split of a character list at every percent character: the part before
the first percent, and the pieces between consecutive percents.  This is
the shape in which urllib.parse.unquote processes its input. -/
def splitPct : List Char → List Char × List (List Char)
  | [] => ([], [])
  | c :: cs =>
    match splitPct cs with
    | (hd, pieces) => if c == '%' then ([], hd :: pieces) else (c :: hd, pieces)

/-- Decoding of one piece that followed a percent character: when the
piece starts with two hexadecimal digits they become the character with
that code, otherwise the percent is kept literally, exactly as
urllib.parse.unquote treats an invalid escape.  Multi-byte UTF-8 escape
sequences are modelled bytewise, which is enough for the ASCII request
lines the pipeline classifies. -/
def pctPiece (piece : List Char) : List Char :=
  match piece with
  | a :: b :: rest =>
    match hexVal a, hexVal b with
    | some x, some y => Char.ofNat (16 * x + y) :: rest
    | _, _ => '%' :: piece
  | _ => '%' :: piece

/-- Model of urllib.parse.unquote_plus: every plus becomes a space and
then percent escapes are decoded. -/
def unquote_plus (s : String) : String :=
  match splitPct (s.data.map (fun c => if c == '+' then ' ' else c)) with
  | (hd, pieces) => String.mk (hd ++ (pieces.map pctPiece).flatten)

/-- The character class of the scheme group of the request regex in
LogRecordManager, the literal class of letters, digits, dot, slash and
underscore. -/
def classChar (c : Char) : Bool :=
  c.isAlpha || c.isDigit || c == '.' || c == '/' || c == '_'

/-- Whitespace as matched by the regex token for spaces; the ASCII core of
the Python class, which covers every character a parsed request line can
contain at the match positions. -/
def isSpaceChar (c : Char) : Bool :=
  c == ' ' || c == '\t' || c == '\n' || c == '\r' || c == '\x0b' || c == '\x0c'

/-- Longest prefix of scheme-class characters together with the remainder,
the match of the greedy scheme group of the regex. -/
def takeClass : List Char → List Char × List Char
  | [] => ([], [])
  | c :: cs =>
    if classChar c then
      match takeClass cs with
      | (a, b) => (c :: a, b)
    else ([], c :: cs)

/-- The greedy match of the value group of the regex followed by a
whitespace: the longest dot-matchable prefix of the input whose next
character is whitespace.  Since the dot does not match a newline, this is
the prefix before the first newline when one occurs, and otherwise the
prefix before the last whitespace; none when no such split exists. -/
def group3Of : List Char → Option (List Char)
  | [] => none
  | c :: cs =>
    if c == '\n' then some []
    else
      match group3Of cs with
      | some g => some (c :: g)
      | none => if isSpaceChar c then some [] else none

/-- After the engine has fixed the position of the whitespace-slash pair,
the rest of the pattern has no further choice: the scheme group is forced
to the longest class run (a shorter run would put a class character,
never a colon, after it), a colon must follow, and the value group is the
greedy match of group3Of. -/
def matchFrom (B : List Char) : Option (List Char × List Char) :=
  match takeClass B with
  | (r, rest) =>
    match rest with
    | ':' :: C =>
      match group3Of C with
      | some g => some (r, g)
      | none => none
    | _ => none

/-- Backtracking search of the anchored request regex of the source.  The
leading greedy dot-star tries the rightmost whitespace-slash pair first
and moves left on failure; positions to the right of a newline are
unreachable because the dot does not match a newline.  The result is the
pair of the scheme group and the value group. -/
def reSearch : List Char → Option (List Char × List Char)
  | [] => none
  | [_] => none
  | c :: d :: cs =>
    match (if c == '\n' then none else reSearch (d :: cs)) with
    | some res => some res
    | none => if isSpaceChar c && d == '/' then matchFrom cs else none

/-- Python str.strip with the slash argument: leading and trailing slash
characters removed. -/
def stripSlashes (s : String) : String :=
  String.mk (((s.data.dropWhile (fun c => c == '/')).reverse.dropWhile
    (fun c => c == '/')).reverse)

/-- Python substring membership, used for the dot-php rejection test. -/
def containsSub (pat s : List Char) : Bool :=
  (List.range (s.length + 1)).any (fun i => List.isPrefixOf pat (s.drop i))

/-- The classification part of LogRecordManager.splitRecord: percent
decode the request line, run the request regex, lower-case the scheme
group and strip slashes from both groups, and reject schemes containing
the substring dot-php.  Returns the scheme and value on success. -/
def classifyRequest (request_line : String) : Option (String × String) :=
  match reSearch (unquote_plus request_line).data with
  | none => none
  | some (g2, g3) =>
    let id_scheme := stripSlashes (String.mk (g2.map Char.toLower))
    if containsSub ".php".data id_scheme.data then none
    else some (id_scheme, stripSlashes (String.mk g3))

/-- LogRecordManager.splitRecord: classify the request line and, on
success, build the seventeen-column row, including the millisecond of day
computation and the enrichment lookups, with the row id computed by
getRowId from the timestamp, the remote host and the identifier value.
The empty Python list return becomes none. -/
def splitRecord (env : Env) (entry : LogEntry) : Option Row :=
  match classifyRequest entry.request_line with
  | none => none
  | some (id_scheme, id_value) =>
    let ua := entry.user_agent.getD ""
    let uap := parse_ua env.uaP ua
    let ts := entry.request_time
    let msec := ts.microsecond / 1000 + ts.second * 1000 + ts.minute * 60 * 1000
      + ts.hour * 60 * 60 * 1000
    some
      { id := getRowId env.hash (env.dtStr ts) entry.remote_host id_value,
        t := ts,
        y := ts.year,
        m := ts.month,
        d := ts.day,
        msec := msec,
        client_ip := entry.remote_host,
        id_scheme := id_scheme,
        id_value := id_value,
        country_code := env.to_country entry.remote_host,
        browser_family := uap.browser_family,
        browser_major := uap.browser_major,
        device_brand := uap.device_brand,
        device_family := uap.device_family,
        device_model := uap.device_model,
        os_family := uap.os_family,
        os_major := uap.os_major }

/-- Presence of a primary key in the logs table, the condition under which
sqlite raises an IntegrityError for an INSERT of that key. -/
def hasId (store : List Row) (i : String) : Bool :=
  store.any (fun r => r.id == i)

/-- The sqlite executemany of the bulk INSERT: the rows are inserted one
after the other and the statement stops at the first row whose primary
key is already present.  On success the result is the extended table; on
an IntegrityError the result is the table as left by the aborted
statement, because the rows inserted before the failure stay inside the
open transaction of the shared connection.  No commit boundaries are
modelled: the table is the view of the single connection that performs
every read and write of a run. -/
def executemanyIns : List Row → List Row → Except (List Row) (List Row)
  | store, [] => Except.ok store
  | store, r :: rest =>
    if hasId store r.id then Except.error store
    else executemanyIns (store ++ [r]) rest

/-- One step of the per-row fallback loop of addrows: the row is inserted
when its key is fresh and otherwise appended to the list of rows for
which a duplicate warning is logged. -/
def fbStep (acc : List Row × List Row) (r : Row) : List Row × List Row :=
  if hasId acc.1 r.id then (acc.1, acc.2 ++ [r]) else (acc.1 ++ [r], acc.2)

/-- LogRecordManager.addrows: first a bulk insert of the whole buffer is
attempted; when it raises an IntegrityError (which is logged once as a
warning) every row of the buffer is retried one at a time against the
table state the failed bulk attempt left behind, and each individual
IntegrityError is logged and swallowed.  The first component is the
resulting table, the second the rows whose individual insert raised. -/
def addrowsS (store : List Row) (rows : List Row) : List Row × List Row :=
  match executemanyIns store rows with
  | Except.ok s => (s, [])
  | Except.error ps => rows.foldl fbStep (ps, [])

/-- Insert-if-fresh fold over a batch; the common value of both paths of
addrowsS, used to state its properties. -/
def insFold (store : List Row) (rows : List Row) : List Row :=
  rows.foldl (fun s r => if hasId s r.id then s else s ++ [r]) store

/-- SQL MAX over the stored timestamp column, none on an empty table. -/
def maxT : List Row → Option DateTime
  | [] => none
  | r :: rest => some (rest.foldl (fun m x => dtMax m x.t) r.t)

/-- LogRecordManager.oldestLogRecord: SELECT MAX(t) FROM logs, then
datetime.fromisoformat of the fetched value.  On an empty table the
aggregate yields NULL, fromisoformat receives None and raises a
TypeError, which this model returns as the error case; nothing in the
source catches it. -/
def oldestLogRecord (store : List Row) : Except String DateTime :=
  match maxT store with
  | none => Except.error "TypeError: fromisoformat argument must be str"
  | some t => Except.ok t

/-- The loop state of LogRecordManager.parse: the table behind the shared
connection, the buffered rows and their ids for the current flush cycle,
the processed count n, the parsed-line count, whether the loop was left
through the break of the record cap, and (as an observation for the
statements below) the list of the buffers handed to addrows so far. -/
structure PState where
  store : List Row
  rows : List Row
  ids : List String
  n : Nat
  nparsed : Nat
  stopped : Bool
  flushed : List (List Row)
deriving Repr, DecidableEq

/-- Initial loop state over a given table. -/
def initPState (store : List Row) : PState :=
  { store := store, rows := [], ids := [], n := 0, nparsed := 0,
    stopped := false, flushed := [] }

/-- The watermark gate of the loop: the entry timestamp is at least the
stored maximum. -/
def wmOK (w : DateTime) (e : LogEntry) : Bool :=
  dtLe w e.request_time

/-- The status and host gate of the loop: the final status is 302 or 303
and the remote host is not in LOCAL_HOST. -/
def statusOK (e : LogEntry) : Bool :=
  (e.final_status == 302 || e.final_status == 303)
    && !(LOCAL_HOST.contains e.remote_host)

/-- The body run for a record that splitRecord produced: when its id is
not among the ids buffered in this cycle, the record is buffered and the
processed count is incremented, and on each ten-thousandth processed
record the buffer is flushed through addrows and the cycle state is
reset. -/
def bufferRecord (st : PState) (r : Row) : PState :=
  if st.ids.contains r.id then st
  else if (st.n + 1) % 10000 = 0 then
    { st with
      store := (addrowsS st.store (st.rows ++ [r])).1, rows := [], ids := [],
      n := st.n + 1, flushed := st.flushed ++ [st.rows ++ [r]] }
  else
    { st with rows := st.rows ++ [r], ids := st.ids ++ [r.id], n := st.n + 1 }

/-- The inner body of one loop iteration for a status-qualifying entry:
build the record and buffer it when splitRecord yields one. -/
def stepRecord (env : Env) (st : PState) (e : LogEntry) : PState :=
  match splitRecord env e with
  | none => st
  | some r => bufferRecord st r

/-- One iteration of the entry loop of LogRecordManager.parse.  After the
break of the record cap the state is left untouched, which models that
the loop is no longer running; the break also skips the parsed-line
increment of its own iteration.  The cap test sits inside the status
branch and fires when the processed count strictly exceeds the cap, in
which case the buffer is discarded before the break. -/
def pstep (env : Env) (w : DateTime) (maxr : Int) (st : PState)
    (e : LogEntry) : PState :=
  if st.stopped then st
  else if wmOK w e then
    if statusOK e then
      if 0 < maxr ∧ maxr < ((stepRecord env st e).n : Int) then
        { stepRecord env st e with rows := [], stopped := true }
      else
        { stepRecord env st e with nparsed := (stepRecord env st e).nparsed + 1 }
    else { st with nparsed := st.nparsed + 1 }
  else { st with nparsed := st.nparsed + 1 }

/-- The entry loop of LogRecordManager.parse over the parsed entries. -/
def parseLoop (env : Env) (w : DateTime) (maxr : Int) (st : PState)
    (input : List LogEntry) : PState :=
  input.foldl (pstep env w maxr) st

/-- The code after the loop: a final addrows of the remaining buffer when
it is not empty. -/
def parseFinish (st : PState) : PState :=
  if st.rows.isEmpty then st
  else
    { st with
      store := (addrowsS st.store st.rows).1,
      flushed := st.flushed ++ [st.rows] }

/-- LogRecordManager.parse: read the watermark (propagating the error an
empty table produces), then run the entry loop and the final flush.  The
Python function returns None; the model returns the final loop state so
that the effects of a run can be stated. -/
def parse (env : Env) (store : List Row) (input : List LogEntry)
    (maxr : Int) : Except String PState :=
  match oldestLogRecord store with
  | Except.error e => Except.error e
  | Except.ok w => Except.ok (parseFinish (parseLoop env w maxr (initPState store) input))

/-- The parseLog helper of the source: builds the manager for the store
and calls parse with the max_rows it was given (its own default is the
unbounded -1). -/
def parseLog (env : Env) (store : List Row) (input : List LogEntry)
    (max_rows : Int) : Except String PState :=
  parse env store input max_rows

/-- The click command main of the source.  It receives the max_rows
option but invokes parseLog without forwarding it, so parseLog runs with
its own default of -1 whatever cap was given on the command line. -/
def mainCmd (env : Env) (store : List Row) (input : List LogEntry)
    (max_rows : Int) : Except String PState :=
  parseLog env store input (-1)

/-- The full per-entry gate of the loop. -/
def qualifies (w : DateTime) (e : LogEntry) : Bool :=
  wmOK w e && statusOK e

/-- The records that the entries of an input produce through the gates
and splitRecord, before any deduplication. -/
def producedRows (env : Env) (w : DateTime) (input : List LogEntry) : List Row :=
  input.filterMap (fun e => if qualifies w e then splitRecord env e else none)

/-- Modelled from the spec: the pre-deduplication count of records that
passed classification, the value the spec says a run returns. -/
def specProcessedCount (env : Env) (w : DateTime) (input : List LogEntry) : Nat :=
  (input.filter (fun e => qualifies w e && (splitRecord env e).isSome)).length

/-! Concrete fixtures used to instantiate the statements below.  The
external environment is instantiated with simple total functions: the
digest is the identity on the concatenated input, the string form of a
datetime is a fixed string, the country lookup yields nothing and the
user agent parser always raises. -/

/-- A stored timestamp used as the watermark of the sample table. -/
def dtA : DateTime :=
  { year := 2020, month := 1, day := 1, hour := 0, minute := 0,
    second := 0, microsecond := 0 }

/-- A later timestamp carried by the sample entries. -/
def dtB : DateTime :=
  { year := 2021, month := 3, day := 2, hour := 1, minute := 2,
    second := 3, microsecond := 4000 }

/-- A concrete environment for the sample runs. -/
def EnvW : Env :=
  { hash := fun s => s, dtStr := fun _ => "", to_country := fun _ => none,
    uaP := fun _ => Except.error "boom" }

/-- A row already present in the sample table. -/
def row0 : Row :=
  { id := "zzz", t := dtA, y := 2020, m := 1, d := 1, msec := 0,
    client_ip := "9.9.9.9", id_scheme := "ark", id_value := "q",
    country_code := none, browser_family := none, browser_major := none,
    device_brand := none, device_family := none, device_model := none,
    os_family := none, os_major := none }

/-- A qualifying sample entry resolving identifier value x. -/
def ea : LogEntry :=
  { remote_host := "1.2.3.4", request_time := dtB,
    request_line := "GET /ark:/x HTTP/1.1", final_status := 302,
    user_agent := none }

/-- A qualifying sample entry resolving identifier value y. -/
def eb : LogEntry :=
  { remote_host := "1.2.3.4", request_time := dtB,
    request_line := "GET /ark:/y HTTP/1.1", final_status := 302,
    user_agent := some "Mozilla" }

/-- A qualifying sample entry resolving identifier value z through the
303 status. -/
def ec : LogEntry :=
  { remote_host := "1.2.3.4", request_time := dtB,
    request_line := "GET /ark:/z HTTP/1.1", final_status := 303,
    user_agent := none }

/-- Projection out of a successful run, used to name concrete run results
in closed statements. -/
def getOk : Except String PState → PState
  | Except.ok s => s
  | Except.error _ => initPState []

/-- The record the sample entry ea produces. -/
def rowA : Row := (splitRecord EnvW ea).getD row0

/-- The entry e2 of the C10 witness: the same raw event as ea but with a
different user agent header. -/
def ea2 : LogEntry :=
  { remote_host := "1.2.3.4", request_time := dtB,
    request_line := "GET /ark:/x HTTP/1.1", final_status := 302,
    user_agent := some "Bot" }

/-- A second environment whose enrichment lookups differ from EnvW but
whose digest and datetime rendering agree with it. -/
def Env2 : Env :=
  { hash := fun s => s, dtStr := fun _ => "",
    to_country := fun _ => some "US",
    uaP := fun _ => Except.ok
      { browser_family := some "Bot", browser_major := some "9",
        device_brand := none, device_family := none, device_model := none,
        os_family := some "L", os_major := none } }

/-- A row sharing only its primary key with nothing, used to build
batches. -/
def mkRow (i : String) : Row := { row0 with id := i }

/-- The five-record batch of the C3 witness; the third record collides
with the stored row row0. -/
def batch5 : List Row :=
  [mkRow "b1", mkRow "b2", mkRow "zzz", mkRow "b4", mkRow "b5"]

/-! Theorems.  Each claim of the specification is settled by exactly one
theorem below; auxiliary lemmas carry the inductive content. -/

theorem hasId_append (s t : List Row) (i : String) :
    hasId (s ++ t) i = (hasId s i || hasId t i) := by
  simp [hasId, List.any_append]

theorem hasId_mono {s : List Row} (t : List Row) {i : String}
    (h : hasId s i = true) : hasId (s ++ t) i = true := by
  simp [hasId_append, h]

theorem insFold_cons (s : List Row) (r : Row) (rest : List Row) :
    insFold s (r :: rest)
      = insFold (if hasId s r.id then s else s ++ [r]) rest := rfl

theorem ite_true_eq {α : Sort _} (a b : α) : (if true = true then a else b) = a := rfl

theorem ite_false_eq {α : Sort _} (a b : α) : (if false = true then a else b) = b := rfl

theorem insFold_append (s : List Row) (a b : List Row) :
    insFold s (a ++ b) = insFold (insFold s a) b := by
  simp [insFold, List.foldl_append]

theorem insFold_nodup_filter (b : List Row) :
    ∀ s : List Row, (b.map Row.id).Nodup →
      insFold s b = s ++ b.filter (fun r => !(hasId s r.id)) := by
  induction b with
  | nil => intro s _; simp [insFold]
  | cons x rest ih =>
    intro s hnd
    rw [List.map_cons, List.nodup_cons] at hnd
    obtain ⟨hx, hrest⟩ := hnd
    rw [insFold_cons]
    cases h : hasId s x.id with
    | true =>
      rw [ite_true_eq, ih s hrest]
      simp [List.filter_cons, h]
    | false =>
      rw [ite_false_eq, ih (s ++ [x]) hrest]
      have hcong : rest.filter (fun r => !(hasId (s ++ [x]) r.id))
          = rest.filter (fun r => !(hasId s r.id)) := by
        apply List.filter_congr
        intro r hr
        have hne : x.id ≠ r.id := by
          intro hEq
          exact hx (hEq ▸ List.mem_map_of_mem Row.id hr)
        simp [hasId_append, hasId, hne]
      rw [hcong]
      simp [List.filter_cons, h]

theorem exec_ok (b : List Row) :
    ∀ s s2, executemanyIns s b = Except.ok s2 →
      s2 = insFold s b ∧ ∀ r ∈ b, hasId s r.id = false := by
  induction b with
  | nil =>
    intro s s2 h
    simp only [executemanyIns, Except.ok.injEq] at h
    exact ⟨h ▸ by simp [insFold], by intro r hr; cases hr⟩
  | cons x rest ih =>
    intro s s2 h
    simp only [executemanyIns] at h
    cases hx : hasId s x.id with
    | true => rw [if_pos hx] at h; cases h
    | false =>
      rw [if_neg (by simp [hx])] at h
      obtain ⟨h1, h2⟩ := ih (s ++ [x]) s2 h
      refine ⟨?_, ?_⟩
      · rw [insFold_cons, if_neg (by simp [hx])]; exact h1
      · intro r hr
        rcases List.mem_cons.mp hr with rfl | hr
        · exact hx
        · have := h2 r hr
          rw [hasId_append] at this
          exact (Bool.or_eq_false_iff.mp this).1

theorem exec_err (b : List Row) :
    ∀ s ps, executemanyIns s b = Except.error ps →
      (∃ t, ps = s ++ t) ∧ insFold ps b = insFold s b := by
  induction b with
  | nil => intro s ps h; simp [executemanyIns] at h
  | cons x rest ih =>
    intro s ps h
    simp only [executemanyIns] at h
    cases hx : hasId s x.id with
    | true =>
      rw [if_pos hx] at h
      simp only [Except.error.injEq] at h
      subst h
      exact ⟨⟨[], by simp⟩, rfl⟩
    | false =>
      rw [if_neg (by simp [hx])] at h
      obtain ⟨⟨t, ht⟩, hfold⟩ := ih (s ++ [x]) ps h
      have hps : hasId ps x.id = true := by
        rw [ht]
        exact hasId_mono t (by simp [hasId_append, hasId])
      constructor
      · exact ⟨x :: t, by rw [ht]; simp⟩
      · rw [insFold_cons, insFold_cons, if_pos hps, if_neg (by simp [hx])]
        exact hfold

theorem fb_fst (b : List Row) :
    ∀ s ws, (List.foldl fbStep (s, ws) b).1 = insFold s b := by
  induction b with
  | nil => intro s ws; simp [insFold]
  | cons x rest ih =>
    intro s ws
    rw [List.foldl_cons, insFold_cons]
    unfold fbStep
    cases h : hasId s x.id with
    | true => rw [ite_true_eq, ite_true_eq]; exact ih _ _
    | false => rw [ite_false_eq, ite_false_eq]; exact ih _ _

theorem fb_warn_mono (b : List Row) :
    ∀ s ws x, x ∈ ws → x ∈ (List.foldl fbStep (s, ws) b).2 := by
  induction b with
  | nil => intro s ws x hx; exact hx
  | cons y rest ih =>
    intro s ws x hx
    rw [List.foldl_cons]
    unfold fbStep
    cases h : hasId s y.id with
    | true => rw [ite_true_eq]; exact ih _ _ x (List.mem_append_left _ hx)
    | false => rw [ite_false_eq]; exact ih _ _ x hx

theorem fb_warn (b : List Row) :
    ∀ s ws r, r ∈ b → hasId s r.id = true →
      r ∈ (List.foldl fbStep (s, ws) b).2 := by
  induction b with
  | nil => intro s ws r hr; cases hr
  | cons x rest ih =>
    intro s ws r hr hid
    rw [List.foldl_cons]
    rcases List.mem_cons.mp hr with rfl | hr
    · unfold fbStep
      rw [if_pos hid]
      exact fb_warn_mono rest _ _ r (by simp)
    · unfold fbStep
      cases h : hasId s x.id with
      | true => rw [ite_true_eq]; exact ih _ _ r hr hid
      | false => rw [ite_false_eq]; exact ih _ _ r hr (hasId_mono [x] hid)

theorem addrows_fst (s b : List Row) : (addrowsS s b).1 = insFold s b := by
  unfold addrowsS
  cases hx : executemanyIns s b with
  | ok s2 => exact (exec_ok b s s2 hx).1
  | error ps =>
    rw [fb_fst b ps []]
    exact (exec_err b s ps hx).2

theorem addrows_warn {s b : List Row} {r : Row} (hr : r ∈ b)
    (hid : hasId s r.id = true) : r ∈ (addrowsS s b).2 := by
  unfold addrowsS
  cases hx : executemanyIns s b with
  | ok s2 =>
    have := (exec_ok b s s2 hx).2 r hr
    rw [hid] at this
    cases this
  | error ps =>
    simp only []
    obtain ⟨⟨t, ht⟩, _⟩ := exec_err b s ps hx
    exact fb_warn b ps [] r hr (by rw [ht]; exact hasId_mono t hid)

theorem length_filter_not (p : Row → Bool) (l : List Row) :
    (l.filter (fun a => !(p a))).length = l.length - (l.filter p).length := by
  induction l with
  | nil => rfl
  | cons a rest ih =>
    have hle : (rest.filter p).length ≤ rest.length := List.length_filter_le _ _
    cases h : p a <;> simp [List.filter_cons, h, ih] <;> omega

/-- C3: a nodup buffer of N records of which M collide with primary keys
already in the table is persisted as exactly the N minus M fresh records,
appended in order; every record whose key already sat in the table ends
up among the rows for which the per-record fallback logs a duplicate
warning, and addrows returns normally in all cases. -/
theorem claim_C3_addrows_conflict_isolation (store batch : List Row)
    (hnd : (batch.map Row.id).Nodup) :
    (addrowsS store batch).1
        = store ++ batch.filter (fun r => !(hasId store r.id))
    ∧ (addrowsS store batch).1.length
        = store.length
          + (batch.length - (batch.filter (fun r => hasId store r.id)).length)
    ∧ ∀ r ∈ batch, hasId store r.id = true → r ∈ (addrowsS store batch).2 := by
  have h1 : (addrowsS store batch).1
      = store ++ batch.filter (fun r => !(hasId store r.id)) := by
    rw [addrows_fst]
    exact insFold_nodup_filter batch store hnd
  refine ⟨h1, ?_, fun r hr hid => addrows_warn hr hid⟩
  rw [h1, List.length_append, length_filter_not]

/-- C3 witness: a buffer of five nodup records whose third record
collides with the stored row yields exactly the four rows one, two, four
and five as new rows, and the colliding record is among the warned
duplicates. -/
theorem claim_C3_witness :
    ((batch5.map Row.id).Nodup)
    ∧ ((addrowsS [row0] batch5).1
          = [row0] ++ batch5.filter (fun r => !(hasId [row0] r.id))
      ∧ (addrowsS [row0] batch5).1.length
          = ([row0] : List Row).length
            + (batch5.length
              - (batch5.filter (fun r => hasId [row0] r.id)).length)
      ∧ ∀ r ∈ batch5, hasId [row0] r.id = true → r ∈ (addrowsS [row0] batch5).2)
    ∧ (addrowsS [row0] batch5).1
        = [row0, mkRow "b1", mkRow "b2", mkRow "b4", mkRow "b5"]
    ∧ (addrowsS [row0] batch5).1.length = 5
    ∧ mkRow "zzz" ∈ (addrowsS [row0] batch5).2 :=
  ⟨by decide, claim_C3_addrows_conflict_isolation [row0] batch5 (by decide),
    by decide, by decide, by decide⟩

theorem splitRecord_id_shape {env : Env} {e : LogEntry} {r : Row}
    (h : splitRecord env e = some r) :
    r.id = env.hash (env.dtStr e.request_time ++ e.remote_host ++ r.id_value) := by
  unfold splitRecord at h
  cases hcl : classifyRequest e.request_line with
  | none => rw [hcl] at h; simp at h
  | some p =>
    obtain ⟨sc, v⟩ := p
    rw [hcl] at h
    simp only [Option.some.injEq] at h
    subst h
    simp [getRowId]

theorem addrows_pair_collapse {r1 r2 : Row} (h : r1.id = r2.id)
    (store : List Row) :
    ((addrowsS store [r1, r2]).1).length ≤ store.length + 1 := by
  rw [addrows_fst]
  simp only [insFold, List.foldl_cons, List.foldl_nil]
  cases hA : hasId store r1.id with
  | true =>
    have hB : hasId store r2.id = true := h ▸ hA
    simp [hA, hB]
  | false =>
    have hB : hasId (store ++ [r1]) r2.id = true := by
      rw [← h]
      simp [hasId_append, hasId]
    simp [hA, hB]

/-- C10: the identity key of a built record is the digest of the fixed,
separator-free concatenation of timestamp string, remote host and
identifier value; two entries agreeing on those three raw fields produce
the same key even when classified under environments with different
enrichment lookups, and a buffer holding the two records adds at most one
row to any table. -/
theorem claim_C10_identity_key (env1 env2 : Env) (e1 e2 : LogEntry)
    (r1 r2 : Row)
    (hh : env1.hash = env2.hash) (hd : env1.dtStr = env2.dtStr)
    (ht : e1.request_time = e2.request_time)
    (hhost : e1.remote_host = e2.remote_host)
    (h1 : splitRecord env1 e1 = some r1) (h2 : splitRecord env2 e2 = some r2)
    (hv : r1.id_value = r2.id_value) :
    r1.id = env1.hash (env1.dtStr e1.request_time ++ e1.remote_host ++ r1.id_value)
    ∧ r1.id = r2.id
    ∧ ∀ store : List Row, ((addrowsS store [r1, r2]).1).length ≤ store.length + 1 := by
  have k1 := splitRecord_id_shape h1
  have k2 := splitRecord_id_shape h2
  have keq : r1.id = r2.id := by
    rw [k1, k2, hh, hd, ht, hhost, hv]
  exact ⟨k1, keq, fun store => addrows_pair_collapse keq store⟩

theorem pstep_stopped {env : Env} {w : DateTime} {maxr : Int} {st : PState}
    (e : LogEntry) (h : st.stopped = true) : pstep env w maxr st e = st := by
  unfold pstep
  rw [h, ite_true_eq]

theorem parseLoop_stopped {env : Env} {w : DateTime} {maxr : Int} {st : PState}
    (h : st.stopped = true) :
    ∀ input, parseLoop env w maxr st input = st := by
  intro input
  induction input with
  | nil => rfl
  | cons e rest ih =>
    show parseLoop env w maxr (pstep env w maxr st e) rest = st
    rw [pstep_stopped e h]
    exact ih

theorem parseLoop_append (env : Env) (w : DateTime) (maxr : Int) (st : PState)
    (a b : List LogEntry) :
    parseLoop env w maxr st (a ++ b)
      = parseLoop env w maxr (parseLoop env w maxr st a) b := by
  simp [parseLoop, List.foldl_append]

theorem bufferRecord_fields (st : PState) (r : Row) :
    (bufferRecord st r).stopped = st.stopped
    ∧ (bufferRecord st r).nparsed = st.nparsed
    ∧ ((bufferRecord st r).n = st.n ∨ (bufferRecord st r).n = st.n + 1) := by
  unfold bufferRecord
  by_cases h1 : st.ids.contains r.id = true
  · rw [if_pos h1]; exact ⟨rfl, rfl, Or.inl rfl⟩
  · rw [if_neg h1]
    by_cases h2 : (st.n + 1) % 10000 = 0
    · rw [if_pos h2]; exact ⟨rfl, rfl, Or.inr rfl⟩
    · rw [if_neg h2]; exact ⟨rfl, rfl, Or.inr rfl⟩

theorem stepRecord_fields (env : Env) (st : PState) (e : LogEntry) :
    (stepRecord env st e).stopped = st.stopped
    ∧ (stepRecord env st e).nparsed = st.nparsed
    ∧ ((stepRecord env st e).n = st.n ∨ (stepRecord env st e).n = st.n + 1) := by
  unfold stepRecord
  cases hsp : splitRecord env e with
  | none => exact ⟨rfl, rfl, Or.inl rfl⟩
  | some r => exact bufferRecord_fields st r

/-- The invariant of the record cap: while the loop is running the
processed count is at most the cap, and once it has broken the buffer is
empty and the count is at most one above the cap. -/
def CapInv (K : Int) (st : PState) : Prop :=
  (st.stopped = false ∧ (st.n : Int) ≤ K)
  ∨ (st.stopped = true ∧ st.rows = [] ∧ (st.n : Int) ≤ K + 1)

theorem pstep_cap {K : Int} (hK : 0 < K) (env : Env) (w : DateTime)
    (e : LogEntry) {st : PState} (h : CapInv K st) :
    CapInv K (pstep env w K st e) := by
  rcases h with ⟨hs, hn⟩ | ⟨hs, hrows, hn⟩
  · unfold pstep
    rw [hs, ite_false_eq]
    cases hw : wmOK w e with
    | false => rw [ite_false_eq]; exact Or.inl ⟨rfl, hn⟩
    | true =>
      rw [ite_true_eq]
      cases hst : statusOK e with
      | false => rw [ite_false_eq]; exact Or.inl ⟨rfl, hn⟩
      | true =>
        rw [ite_true_eq]
        obtain ⟨hstp, hnp, hor⟩ := stepRecord_fields env st e
        have hlen : ((stepRecord env st e).n : Int) ≤ (st.n : Int) + 1 := by
          rcases hor with h1 | h1 <;> rw [h1] <;> push_cast <;> omega
        by_cases hc : 0 < K ∧ K < ((stepRecord env st e).n : Int)
        · rw [if_pos hc]
          refine Or.inr ⟨rfl, rfl, ?_⟩
          show ((stepRecord env st e).n : Int) ≤ K + 1
          omega
        · rw [if_neg hc]
          have hnlt : ¬ K < ((stepRecord env st e).n : Int) :=
            fun hlt => hc ⟨hK, hlt⟩
          refine Or.inl ⟨?_, ?_⟩
          · show (stepRecord env st e).stopped = false
            rw [hstp]; exact hs
          · show ((stepRecord env st e).n : Int) ≤ K
            omega
  · rw [pstep_stopped e hs]
    exact Or.inr ⟨hs, hrows, hn⟩

theorem parseLoop_cap {K : Int} (hK : 0 < K) (env : Env) (w : DateTime)
    (input : List LogEntry) :
    ∀ st : PState, CapInv K st → CapInv K (parseLoop env w K st input) := by
  induction input with
  | nil => exact fun st h => h
  | cons e rest ih =>
    intro st h
    exact ih (pstep env w K st e) (pstep_cap hK env w e h)

theorem parseFinish_fields (st : PState) :
    (parseFinish st).n = st.n ∧ (parseFinish st).stopped = st.stopped
    ∧ (parseFinish st).rows = st.rows
    ∧ (parseFinish st).nparsed = st.nparsed := by
  unfold parseFinish
  by_cases h : st.rows.isEmpty = true
  · rw [if_pos h]; exact ⟨rfl, rfl, rfl, rfl⟩
  · rw [if_neg h]; exact ⟨rfl, rfl, rfl, rfl⟩

theorem parseFinish_of_rows_nil {st : PState} (h : st.rows = []) :
    parseFinish st = st := by
  unfold parseFinish
  rw [if_pos (by rw [h]; rfl)]

/-- C4 (amended): with a configured cap K the run stops consuming input
only once K plus one qualifying records have been accumulated: the final
processed count is at most K plus one (and reaches K plus one on inputs
with more than K qualifying records); once the run has broken on the cap,
its buffer has already been discarded, the final flush is a no-op, and
appending further input to the log changes nothing about the result. -/
theorem claim_C4_cap_amended (env : Env) (S : List Row)
    (input extra : List LogEntry) (K : Int) (st : PState) (hK : 0 < K)
    (h : parse env S input K = Except.ok st) :
    (st.n : Int) ≤ K + 1
    ∧ (st.stopped = true →
        st.rows = [] ∧ parse env S (input ++ extra) K = Except.ok st) := by
  unfold parse at h
  cases hw : oldestLogRecord S with
  | error msg => rw [hw] at h; cases h
  | ok w =>
    rw [hw] at h
    simp only [Except.ok.injEq] at h
    have hcap := parseLoop_cap hK env w input (initPState S)
      (Or.inl ⟨rfl, by simp [initPState]; omega⟩)
    obtain ⟨hfn, hfs, hfr, hfp⟩ :=
      parseFinish_fields (parseLoop env w K (initPState S) input)
    constructor
    · rcases hcap with ⟨h1, h2⟩ | ⟨h1, h2, h3⟩ <;> rw [← h] <;> rw [hfn] <;> omega
    · intro hstop
      rcases hcap with ⟨h1, h2⟩ | ⟨h1, h2, h3⟩
      · rw [← h, hfs] at hstop
        rw [hstop] at h1
        cases h1
      · have hrows : st.rows = [] := by rw [← h, hfr]; exact h2
        refine ⟨hrows, ?_⟩
        unfold parse
        rw [hw]
        show Except.ok (parseFinish (parseLoop env w K (initPState S) (input ++ extra)))
          = Except.ok st
        rw [parseLoop_append, parseLoop_stopped h1]
        exact congrArg Except.ok h

/-- C4 counterexample to the claim as stated: with a cap of one qualifying
record, the run does not stop once one record has been accumulated; it
consumes a second qualifying entry and accumulates it (final processed
count two), breaking only when the count exceeds the cap, and the buffer
holding both records is discarded rather than flushed (the store keeps
only its original row). -/
theorem claim_C4_counterexample :
    parse EnvW [row0] [ea, eb, ec] 1
        = Except.ok (getOk (parse EnvW [row0] [ea, eb, ec] 1))
    ∧ (getOk (parse EnvW [row0] [ea, eb, ec] 1)).n = 2
    ∧ (getOk (parse EnvW [row0] [ea, eb, ec] 1)).stopped = true
    ∧ (getOk (parse EnvW [row0] [ea, eb, ec] 1)).store = [row0]
    ∧ (getOk (parse EnvW [row0] [ea, eb, ec] 1)).flushed = [] :=
  ⟨rfl, rfl, rfl, rfl, rfl⟩

/-- C4 witness: the amended cap theorem instantiated on the concrete
capped run with cap one over three qualifying entries and one appended
extra entry. -/
theorem claim_C4_witness :
    (0 : Int) < 1
    ∧ (((getOk (parse EnvW [row0] [ea, eb, ec] 1)).n : Int) ≤ 1 + 1
      ∧ ((getOk (parse EnvW [row0] [ea, eb, ec] 1)).stopped = true →
          (getOk (parse EnvW [row0] [ea, eb, ec] 1)).rows = []
          ∧ parse EnvW [row0] ([ea, eb, ec] ++ [ea]) 1
              = Except.ok (getOk (parse EnvW [row0] [ea, eb, ec] 1)))) :=
  ⟨by decide,
    claim_C4_cap_amended EnvW [row0] [ea, eb, ec] [ea] 1
      (getOk (parse EnvW [row0] [ea, eb, ec] 1)) (by decide) rfl⟩

theorem contains_iff_mem {l : List String} {a : String} :
    l.contains a = true ↔ a ∈ l := List.elem_iff

/-- The invariant tying the id list of a flush cycle to the buffered
rows: while the loop is running the ids are exactly the ids of the
buffer, without duplicates, and after the break the buffer is empty; in
either case every buffer already handed to addrows had nodup ids. -/
def BufInv (st : PState) : Prop :=
  ((st.ids = st.rows.map Row.id ∧ st.ids.Nodup)
    ∨ (st.stopped = true ∧ st.rows = []))
  ∧ ∀ b ∈ st.flushed, (b.map Row.id).Nodup

theorem bufferRecord_bufinv {st : PState} (r : Row)
    (hids : st.ids = st.rows.map Row.id) (hnd : st.ids.Nodup)
    (hfl : ∀ b ∈ st.flushed, (b.map Row.id).Nodup) :
    ((bufferRecord st r).ids = (bufferRecord st r).rows.map Row.id
      ∧ (bufferRecord st r).ids.Nodup)
    ∧ (∀ b ∈ (bufferRecord st r).flushed, (b.map Row.id).Nodup)
    ∧ (bufferRecord st r).stopped = st.stopped := by
  unfold bufferRecord
  by_cases h1 : st.ids.contains r.id = true
  · rw [if_pos h1]; exact ⟨⟨hids, hnd⟩, hfl, rfl⟩
  · have hmem : r.id ∉ st.ids := fun hm => h1 (contains_iff_mem.mpr hm)
    have hbatch : ((st.rows ++ [r]).map Row.id).Nodup := by
      rw [List.map_append, ← hids]
      rw [List.nodup_append]
      refine ⟨hnd, List.nodup_singleton _, ?_⟩
      intro a ha hb
      simp only [List.map_cons, List.map_nil, List.mem_cons,
        List.not_mem_nil, or_false] at hb
      exact hmem (hb ▸ ha)
    rw [if_neg h1]
    by_cases h2 : (st.n + 1) % 10000 = 0
    · rw [if_pos h2]
      refine ⟨⟨rfl, List.nodup_nil⟩, ?_, rfl⟩
      intro b hb
      rcases List.mem_append.mp hb with hb | hb
      · exact hfl b hb
      · simp only [List.mem_cons, List.not_mem_nil, or_false] at hb
        exact hb ▸ hbatch
    · rw [if_neg h2]
      refine ⟨⟨?_, ?_⟩, hfl, rfl⟩
      · show st.ids ++ [r.id] = (st.rows ++ [r]).map Row.id
        rw [List.map_append, hids]
        rfl
      · show (st.ids ++ [r.id]).Nodup
        rw [List.nodup_append]
        refine ⟨hnd, List.nodup_singleton _, ?_⟩
        intro a ha hb
        simp only [List.mem_cons, List.not_mem_nil, or_false] at hb
        exact hmem (hb ▸ ha)

theorem pstep_bufinv (env : Env) (w : DateTime) (maxr : Int) (e : LogEntry)
    {st : PState} (h : BufInv st) : BufInv (pstep env w maxr st e) := by
  obtain ⟨hleft, hfl⟩ := h
  cases hs : st.stopped with
  | true =>
    rw [pstep_stopped e hs]
    exact ⟨hleft, hfl⟩
  | false =>
    have hrun : st.ids = st.rows.map Row.id ∧ st.ids.Nodup := by
      rcases hleft with h1 | ⟨h1, _⟩
      · exact h1
      · rw [hs] at h1; cases h1
    unfold pstep
    rw [hs, ite_false_eq]
    cases hw : wmOK w e with
    | false => exact ⟨Or.inl hrun, hfl⟩
    | true =>
      rw [ite_true_eq]
      cases hst : statusOK e with
      | false => exact ⟨Or.inl hrun, hfl⟩
      | true =>
        rw [ite_true_eq]
        have hstep : ((stepRecord env st e).ids = (stepRecord env st e).rows.map Row.id
            ∧ (stepRecord env st e).ids.Nodup)
            ∧ (∀ b ∈ (stepRecord env st e).flushed, (b.map Row.id).Nodup) := by
          unfold stepRecord
          cases hsp : splitRecord env e with
          | none => exact ⟨hrun, hfl⟩
          | some r =>
            obtain ⟨ha, hb, _⟩ := bufferRecord_bufinv r hrun.1 hrun.2 hfl
            exact ⟨ha, hb⟩
        by_cases hc : 0 < maxr ∧ maxr < ((stepRecord env st e).n : Int)
        · rw [if_pos hc]
          exact ⟨Or.inr ⟨rfl, rfl⟩, hstep.2⟩
        · rw [if_neg hc]
          exact ⟨Or.inl hstep.1, hstep.2⟩

theorem parseLoop_bufinv (env : Env) (w : DateTime) (maxr : Int)
    (input : List LogEntry) :
    ∀ st : PState, BufInv st → BufInv (parseLoop env w maxr st input) := by
  induction input with
  | nil => exact fun st h => h
  | cons e rest ih =>
    intro st h
    exact ih (pstep env w maxr st e) (pstep_bufinv env w maxr e h)

theorem parseFinish_bufinv {st : PState} (h : BufInv st) :
    ∀ b ∈ (parseFinish st).flushed, (b.map Row.id).Nodup := by
  obtain ⟨hleft, hfl⟩ := h
  unfold parseFinish
  by_cases he : st.rows.isEmpty = true
  · rw [if_pos he]; exact hfl
  · rw [if_neg he]
    intro b hb
    rcases List.mem_append.mp hb with hb | hb
    · exact hfl b hb
    · simp only [List.mem_cons, List.not_mem_nil, or_false] at hb
      rcases hleft with ⟨h1, h2⟩ | ⟨_, h1⟩
      · rw [hb, ← h1]; exact h2
      · rw [h1] at he; cases he rfl

/-- C7: every buffer handed to a bulk insert attempt during a run,
including the final incomplete buffer, has pairwise distinct identity keys:
the per-cycle id list collapses same-key records before they reach the
buffer. -/
theorem claim_C7_batches_nodup (env : Env) (S : List Row)
    (input : List LogEntry) (maxr : Int) (st : PState)
    (h : parse env S input maxr = Except.ok st) :
    ∀ b ∈ st.flushed, (b.map Row.id).Nodup := by
  unfold parse at h
  cases hw : oldestLogRecord S with
  | error msg => rw [hw] at h; cases h
  | ok w =>
    rw [hw] at h
    simp only [Except.ok.injEq] at h
    have hinv : BufInv (parseLoop env w maxr (initPState S) input) :=
      parseLoop_bufinv env w maxr input (initPState S)
        ⟨Or.inl ⟨rfl, List.nodup_nil⟩, by intro b hb; cases hb⟩
    rw [← h]
    exact parseFinish_bufinv hinv

/-- C7 witness: the flushed buffers of a concrete uncapped run over two
distinct qualifying entries all have nodup identity keys. -/
theorem claim_C7_witness :
    parse EnvW [row0] [ea, eb] (-1)
        = Except.ok (getOk (parse EnvW [row0] [ea, eb] (-1)))
    ∧ ∀ b ∈ (getOk (parse EnvW [row0] [ea, eb] (-1))).flushed,
        (b.map Row.id).Nodup :=
  ⟨rfl, claim_C7_batches_nodup EnvW [row0] [ea, eb] (-1)
    (getOk (parse EnvW [row0] [ea, eb] (-1))) rfl⟩

theorem parseLoop_cons (env : Env) (w : DateTime) (maxr : Int) (st : PState)
    (e : LogEntry) (rest : List LogEntry) :
    parseLoop env w maxr st (e :: rest)
      = parseLoop env w maxr (pstep env w maxr st e) rest := rfl

theorem producedRows_cons_skip (env : Env) (w : DateTime) {e : LogEntry}
    (rest : List LogEntry)
    (h : qualifies w e = false ∨ splitRecord env e = none) :
    producedRows env w (e :: rest) = producedRows env w rest := by
  rcases h with h | h
  · simp [producedRows, List.filterMap_cons, h]
  · cases hq : qualifies w e <;> simp [producedRows, List.filterMap_cons, hq, h]

theorem producedRows_cons_some {env : Env} {w : DateTime} {e : LogEntry}
    {r : Row} (rest : List LogEntry) (hq : qualifies w e = true)
    (hsp : splitRecord env e = some r) :
    producedRows env w (e :: rest) = r :: producedRows env w rest := by
  simp [producedRows, List.filterMap_cons, hq, hsp]

theorem specCount_cons_skip (env : Env) (w : DateTime) {e : LogEntry}
    (rest : List LogEntry)
    (h : qualifies w e = false ∨ splitRecord env e = none) :
    specProcessedCount env w (e :: rest) = specProcessedCount env w rest := by
  rcases h with h | h
  · simp [specProcessedCount, List.filter_cons, h]
  · simp [specProcessedCount, List.filter_cons, h]

theorem specCount_cons_some {env : Env} {w : DateTime} {e : LogEntry}
    {r : Row} (rest : List LogEntry) (hq : qualifies w e = true)
    (hsp : splitRecord env e = some r) :
    specProcessedCount env w (e :: rest) = specProcessedCount env w rest + 1 := by
  simp [specProcessedCount, List.filter_cons, hq, hsp]

theorem pstep_noprod {env : Env} {w : DateTime} {e : LogEntry} {st : PState}
    (h0 : st.stopped = false)
    (h : qualifies w e = false ∨ splitRecord env e = none) :
    pstep env w (-1) st e = { st with nparsed := st.nparsed + 1 } := by
  unfold pstep
  rw [if_neg (show ¬(st.stopped = true) by rw [h0]; simp)]
  cases hw : wmOK w e with
  | false => rw [ite_false_eq]
  | true =>
    rw [ite_true_eq]
    cases hst : statusOK e with
    | false => rw [ite_false_eq]
    | true =>
      rw [ite_true_eq]
      have hq : qualifies w e = true := by simp [qualifies, hw, hst]
      have hsp : splitRecord env e = none := by
        rcases h with h | h
        · rw [hq] at h; cases h
        · exact h
      have hstep : stepRecord env st e = st := by
        unfold stepRecord; rw [hsp]
      rw [if_neg (fun hc => absurd hc.1 (by decide)), hstep]

theorem pstep_prod {env : Env} {w : DateTime} {e : LogEntry} {st : PState}
    {r : Row} (h0 : st.stopped = false) (hq : qualifies w e = true)
    (hsp : splitRecord env e = some r) :
    pstep env w (-1) st e
      = { bufferRecord st r with nparsed := (bufferRecord st r).nparsed + 1 } := by
  have hq2 : wmOK w e = true ∧ statusOK e = true := by
    simpa [qualifies, Bool.and_eq_true] using hq
  have hstep : stepRecord env st e = bufferRecord st r := by
    unfold stepRecord; rw [hsp]
  unfold pstep
  rw [if_neg (show ¬(st.stopped = true) by rw [h0]; simp), if_pos hq2.1,
    if_pos hq2.2, if_neg (fun hc => absurd hc.1 (by decide)), hstep]

theorem pstep_prod_flush {env : Env} {w : DateTime} {e : LogEntry}
    {st : PState} {r : Row} (h0 : st.stopped = false)
    (hq : qualifies w e = true) (hsp : splitRecord env e = some r)
    (hcont : st.ids.contains r.id = false)
    (hfl : (st.n + 1) % 10000 = 0) :
    pstep env w (-1) st e
      = { st with
          store := (addrowsS st.store (st.rows ++ [r])).1, rows := [],
          ids := [], n := st.n + 1, nparsed := st.nparsed + 1,
          flushed := st.flushed ++ [st.rows ++ [r]] } := by
  rw [pstep_prod h0 hq hsp]
  unfold bufferRecord
  rw [if_neg (show ¬(st.ids.contains r.id = true) by rw [hcont]; simp),
    if_pos hfl]

theorem pstep_prod_noflush {env : Env} {w : DateTime} {e : LogEntry}
    {st : PState} {r : Row} (h0 : st.stopped = false)
    (hq : qualifies w e = true) (hsp : splitRecord env e = some r)
    (hcont : st.ids.contains r.id = false)
    (hfl : ¬((st.n + 1) % 10000 = 0)) :
    pstep env w (-1) st e
      = { st with
          rows := st.rows ++ [r], ids := st.ids ++ [r.id],
          n := st.n + 1, nparsed := st.nparsed + 1 } := by
  rw [pstep_prod h0 hq hsp]
  unfold bufferRecord
  rw [if_neg (show ¬(st.ids.contains r.id = true) by rw [hcont]; simp),
    if_neg hfl]

theorem loop_count (env : Env) (w : DateTime) (input : List LogEntry) :
    ∀ (st : PState) (done : List String),
      st.stopped = false →
      (∀ i ∈ st.ids, i ∈ done) →
      (done ++ (producedRows env w input).map Row.id).Nodup →
      (parseLoop env w (-1) st input).n = st.n + specProcessedCount env w input
      ∧ (∀ i ∈ (parseLoop env w (-1) st input).ids,
          i ∈ done ++ (producedRows env w input).map Row.id)
      ∧ (parseLoop env w (-1) st input).stopped = false := by
  induction input with
  | nil =>
    intro st done h0 h1 h2
    refine ⟨by simp [parseLoop, specProcessedCount], ?_, h0⟩
    intro i hi
    exact List.mem_append_left _ (h1 i hi)
  | cons e rest ih =>
    intro st done h0 h1 h2
    rw [parseLoop_cons]
    cases hq : qualifies w e with
    | false =>
      rw [pstep_noprod h0 (Or.inl hq)]
      have hpr := producedRows_cons_skip env w rest (Or.inl hq)
      have hsc := specCount_cons_skip env w rest (Or.inl hq)
      rw [hpr] at h2
      obtain ⟨ha, hb, hc⟩ := ih { st with nparsed := st.nparsed + 1 } done h0 h1 h2
      exact ⟨by rw [hsc]; exact ha, by rw [hpr]; exact hb, hc⟩
    | true =>
      cases hsp : splitRecord env e with
      | none =>
        rw [pstep_noprod h0 (Or.inr hsp)]
        have hpr := producedRows_cons_skip env w rest (Or.inr hsp)
        have hsc := specCount_cons_skip env w rest (Or.inr hsp)
        rw [hpr] at h2
        obtain ⟨ha, hb, hc⟩ := ih { st with nparsed := st.nparsed + 1 } done h0 h1 h2
        exact ⟨by rw [hsc]; exact ha, by rw [hpr]; exact hb, hc⟩
      | some r =>
        have hpr := producedRows_cons_some rest hq hsp
        have hsc := specCount_cons_some rest hq hsp
        rw [hpr] at h2
        have hparts := List.nodup_append.mp h2
        have hndone : r.id ∉ done :=
          fun hmem => hparts.2.2 hmem (List.mem_cons_self _ _)
        have hcont : st.ids.contains r.id = false := by
          cases hcc : st.ids.contains r.id with
          | false => rfl
          | true => exact absurd (h1 r.id (contains_iff_mem.mp hcc)) hndone
        have h2b : ((done ++ [r.id])
            ++ (producedRows env w rest).map Row.id).Nodup := by
          rw [List.append_assoc]
          exact h2
        by_cases hfl : (st.n + 1) % 10000 = 0
        · rw [pstep_prod_flush h0 hq hsp hcont hfl]
          obtain ⟨ha, hb, hc⟩ := ih
            { st with
              store := (addrowsS st.store (st.rows ++ [r])).1, rows := [],
              ids := [], n := st.n + 1, nparsed := st.nparsed + 1,
              flushed := st.flushed ++ [st.rows ++ [r]] }
            (done ++ [r.id]) h0
            (by intro i hi; exact absurd hi (List.not_mem_nil i)) h2b
          refine ⟨?_, ?_, hc⟩
          · rw [ha, hsc]
            show st.n + 1 + specProcessedCount env w rest
              = st.n + (specProcessedCount env w rest + 1)
            omega
          · intro i hi
            rw [hpr]
            have := hb i hi
            rw [List.append_assoc] at this
            simpa using this
        · rw [pstep_prod_noflush h0 hq hsp hcont hfl]
          obtain ⟨ha, hb, hc⟩ := ih
            { st with
              rows := st.rows ++ [r], ids := st.ids ++ [r.id],
              n := st.n + 1, nparsed := st.nparsed + 1 }
            (done ++ [r.id]) h0
            (by
              intro i hi
              rcases List.mem_append.mp hi with hi | hi
              · exact List.mem_append_left _ (h1 i hi)
              · exact List.mem_append_right _ hi) h2b
          refine ⟨?_, ?_, hc⟩
          · rw [ha, hsc]
            show st.n + 1 + specProcessedCount env w rest
              = st.n + (specProcessedCount env w rest + 1)
            omega
          · intro i hi
            rw [hpr]
            have := hb i hi
            rw [List.append_assoc] at this
            simpa using this

/-- C5 (amended): parse returns no value in the source (the Python
function ends without a return statement); the count it tracks and logs,
n, counts the records that passed classification and were then not
dropped by the in-cycle identity deduplication.  When the records
produced from the input have pairwise distinct identity keys and no cap
is set, this count coincides with the pre-deduplication count of records
that passed classification. -/
theorem claim_C5_count_amended (env : Env) (S : List Row)
    (input : List LogEntry) (w : DateTime) (st : PState)
    (hw : oldestLogRecord S = Except.ok w)
    (h : parse env S input (-1) = Except.ok st)
    (hnd : ((producedRows env w input).map Row.id).Nodup) :
    st.n = specProcessedCount env w input := by
  unfold parse at h
  rw [hw] at h
  simp only [Except.ok.injEq] at h
  obtain ⟨ha, _, _⟩ := loop_count env w input (initPState S) [] rfl
    (by intro i hi; cases hi) (by simpa using hnd)
  rw [← h, (parseFinish_fields _).1]
  simpa [initPState] using ha

/-- C5 counterexample to the claim as stated: over an input repeating one
qualifying entry twice, two records pass classification (the spec count
is two) but the count the run tracks is one, because the second record is
dropped by the in-cycle identity deduplication before it is counted; so
the tracked count is not the pre-deduplication classification count. -/
theorem claim_C5_counterexample :
    parse EnvW [row0] [ea, ea] (-1)
        = Except.ok (getOk (parse EnvW [row0] [ea, ea] (-1)))
    ∧ oldestLogRecord [row0] = Except.ok dtA
    ∧ (getOk (parse EnvW [row0] [ea, ea] (-1))).n = 1
    ∧ specProcessedCount EnvW dtA [ea, ea] = 2 :=
  ⟨rfl, rfl, rfl, rfl⟩

/-- C5 witness: on two distinct qualifying entries the amended statement
applies and the tracked count equals the spec count, two. -/
theorem claim_C5_witness :
    oldestLogRecord [row0] = Except.ok dtA
    ∧ parse EnvW [row0] [ea, eb] (-1)
        = Except.ok (getOk (parse EnvW [row0] [ea, eb] (-1)))
    ∧ ((producedRows EnvW dtA [ea, eb]).map Row.id).Nodup
    ∧ (getOk (parse EnvW [row0] [ea, eb] (-1))).n
        = specProcessedCount EnvW dtA [ea, eb] :=
  ⟨rfl, rfl, by decide,
    claim_C5_count_amended EnvW [row0] [ea, eb] dtA
      (getOk (parse EnvW [row0] [ea, eb] (-1))) rfl rfl (by decide)⟩

/-- The record the entry ea2 produces under the second environment. -/
def rowA2 : Row := (splitRecord Env2 ea2).getD row0

/-- C10 witness: the two sample entries share timestamp, host and
identifier value but differ in user agent and are classified under
environments with different enrichment lookups; their records differ in
the enrichment columns yet carry the same identity key, and storing both
into the sample table adds exactly one row. -/
theorem claim_C10_witness :
    (EnvW.hash = Env2.hash ∧ EnvW.dtStr = Env2.dtStr
      ∧ ea.request_time = ea2.request_time
      ∧ ea.remote_host = ea2.remote_host
      ∧ splitRecord EnvW ea = some rowA
      ∧ splitRecord Env2 ea2 = some rowA2
      ∧ rowA.id_value = rowA2.id_value)
    ∧ (rowA.id = EnvW.hash (EnvW.dtStr ea.request_time ++ ea.remote_host ++ rowA.id_value)
      ∧ rowA.id = rowA2.id
      ∧ ∀ store : List Row,
          ((addrowsS store [rowA, rowA2]).1).length ≤ store.length + 1)
    ∧ rowA ≠ rowA2
    ∧ rowA.country_code = none ∧ rowA2.country_code = some "US"
    ∧ ((addrowsS [row0] [rowA, rowA2]).1).length = 2 :=
  ⟨⟨rfl, rfl, rfl, rfl, rfl, rfl, rfl⟩,
    claim_C10_identity_key EnvW Env2 ea ea2 rowA rowA2 rfl rfl rfl rfl rfl rfl rfl,
    by decide, by decide, by decide, by decide⟩

/-- C6: classification of the request line GET /ark:/12025/1234 HTTP/1.1
yields scheme ark and value 12025/1234; classification of
GET /foo.php:x HTTP/1.1 yields no result because the scheme contains the
substring .php; classification of GET /nomatch HTTP/1.1 yields no result
because no scheme-colon-value segment is present. -/
theorem claim_C6_classification_examples :
    classifyRequest "GET /ark:/12025/1234 HTTP/1.1" = some ("ark", "12025/1234")
    ∧ classifyRequest "GET /foo.php:x HTTP/1.1" = none
    ∧ classifyRequest "GET /nomatch HTTP/1.1" = none :=
  ⟨rfl, rfl, rfl⟩

/-- C2 (divergence of the code from the claim): when the store contains
no rows, oldestLogRecord does not fail with a recoverable empty-store
error that parse turns into a minus-infinity watermark; instead the NULL
result of the MAX aggregate reaches datetime.fromisoformat, which raises
a TypeError, and parse propagates it, so the run aborts before consuming
any input, whatever the input and the cap are. -/
theorem claim_C2_empty_store_aborts (env : Env) (input : List LogEntry)
    (maxr : Int) :
    parse env [] input maxr
        = Except.error "TypeError: fromisoformat argument must be str"
    ∧ oldestLogRecord []
        = Except.error "TypeError: fromisoformat argument must be str" :=
  ⟨rfl, rfl⟩

/-- C8 (divergence of the code from the claim): main accepts the
max_rows option but calls parseLog without forwarding it, so every
invocation runs with the unbounded default -1; concretely, invoking the
command with a cap of 1 over three qualifying entries processes all
three records, while a run that did receive the cap would have stopped
after two. -/
theorem claim_C8_cap_option_ignored :
    (∀ (env : Env) (store : List Row) (input : List LogEntry) (m : Int),
      mainCmd env store input m = parse env store input (-1))
    ∧ (getOk (mainCmd EnvW [row0] [ea, eb, ec] 1)).n = 3
    ∧ (getOk (mainCmd EnvW [row0] [ea, eb, ec] 1)).stopped = false
    ∧ (getOk (parse EnvW [row0] [ea, eb, ec] 1)).n = 2
    ∧ (getOk (parse EnvW [row0] [ea, eb, ec] 1)).stopped = true :=
  ⟨fun _ _ _ _ => rfl, rfl, rfl, rfl, rfl⟩

/-- C9: the user agent wrapper parse_ua is total; when the wrapped
external parser raises, the wrapper returns the empty dictionary, and the
record built from an entry whose user agent lookup failed carries none in
all seven enrichment fields. -/
theorem claim_C9_parse_ua_best_effort (env : Env) (e : LogEntry)
    (err : String) (r : Row)
    (h : env.uaP (e.user_agent.getD "") = Except.error err)
    (hr : splitRecord env e = some r) :
    parse_ua env.uaP (e.user_agent.getD "") = emptyUA
    ∧ r.browser_family = none ∧ r.browser_major = none
    ∧ r.device_brand = none ∧ r.device_family = none
    ∧ r.device_model = none ∧ r.os_family = none ∧ r.os_major = none := by
  have hua : parse_ua env.uaP (e.user_agent.getD "") = emptyUA := by
    simp [parse_ua, h]
  refine ⟨hua, ?_⟩
  unfold splitRecord at hr
  cases hcl : classifyRequest e.request_line with
  | none => rw [hcl] at hr; exact absurd hr (by simp)
  | some p =>
    obtain ⟨sc, v⟩ := p
    rw [hcl] at hr
    simp only [Option.some.injEq] at hr
    subst hr
    simp [hua, emptyUA]

/-- C9 witness: the sample environment has a user agent parser that
always raises, and the record built for the sample entry indeed has every
enrichment field absent. -/
theorem claim_C9_witness :
    EnvW.uaP (ea.user_agent.getD "") = Except.error "boom"
    ∧ splitRecord EnvW ea = some rowA
    ∧ (parse_ua EnvW.uaP (ea.user_agent.getD "") = emptyUA
      ∧ rowA.browser_family = none ∧ rowA.browser_major = none
      ∧ rowA.device_brand = none ∧ rowA.device_family = none
      ∧ rowA.device_model = none ∧ rowA.os_family = none
      ∧ rowA.os_major = none) :=
  ⟨rfl, rfl, claim_C9_parse_ua_best_effort EnvW ea "boom" rowA rfl rfl⟩

end N2t
